import Mathlib

set_option maxRecDepth 40000

/-!
Shallow embedding of the citation/reference reconciliation logic of
`src/app.py` (an APA formatting app): the year/author normalizers, the two
in-text citation regex scans, the references-heading search, and the
citation/reference report block, together with the components of the
specification that have no counterpart in the source (the reference-list
segmenter and entry-key extractor), modelled from the spec and marked as such.

Python strings are modelled as Lean `String` over their character lists;
Python sets as duplicate-free lists (`List.dedup`); `re` character classes
are modelled over ASCII plus the three literal characters U+201A, U+00C4,
U+00F4 that appear in the source's citation patterns (the file contains the
mojibake sequence of a double-encoded right single quote, and each of its
three characters is a member of the class); the inputs of interest are ASCII
text.
-/

/-- Python whitespace (ASCII range), as in `str.strip`, `str.split` and the
regex class `\s`; Unicode whitespace beyond ASCII is not modelled. -/
def pyWs (c : Char) : Bool :=
  decide (c.toNat = 32) || decide (c.toNat = 9) || decide (c.toNat = 10) ||
    decide (c.toNat = 13) || decide (c.toNat = 11) || decide (c.toNat = 12)

/-- ASCII uppercase letter, the regex class `[A-Z]`. -/
def asciiUpper (c : Char) : Bool := decide (65 ≤ c.toNat) && decide (c.toNat ≤ 90)

/-- ASCII lowercase letter, the regex class `[a-z]`. -/
def asciiLowerC (c : Char) : Bool := decide (97 ≤ c.toNat) && decide (c.toNat ≤ 122)

/-- ASCII letter, the regex class `[A-Za-z]`. -/
def asciiLetter (c : Char) : Bool := asciiUpper c || asciiLowerC c

/-- ASCII decimal digit; the regex class `\d` is modelled as ASCII digits. -/
def asciiDigit (c : Char) : Bool := decide (48 ≤ c.toNat) && decide (c.toNat ≤ 57)

/-- Python regex word character `\w` (ASCII part), used for the `\b` boundary. -/
def pyWordChar (c : Char) : Bool := asciiLetter c || asciiDigit c || decide (c.toNat = 95)

/-- Removes trailing characters satisfying `pyWs`: the tail half of Python
`str.strip()`. -/
def trimTrail : List Char → List Char
  | [] => []
  | c :: cs => if (trimTrail cs).isEmpty && pyWs c then [] else c :: trimTrail cs

/-- Python `str.strip()` on a character list. -/
def pyStripList (l : List Char) : List Char := trimTrail (l.dropWhile pyWs)

/-- Python `str.strip()`; `_strip` in the source applies this to a string (or
to `""` for `None`). -/
def pyStrip (s : String) : String := ⟨pyStripList s.data⟩

/-- Python `str.lower()` on one character, restricted to ASCII letters (the
inputs of interest are ASCII). -/
def pyLowerChar (c : Char) : Char := if asciiUpper c then Char.ofNat (c.toNat + 32) else c

/-- Python `str.lower()`. -/
def pyLower (s : String) : String := ⟨s.data.map pyLowerChar⟩

/-- Python `s.split()[0]`: the first maximal whitespace-free run. The source
only applies it to strings that contain a non-whitespace character; this total
version returns `""` on all-whitespace input, where Python would raise. -/
def pyFirstWord (s : String) : String := ⟨(s.data.dropWhile pyWs).takeWhile (fun c => !pyWs c)⟩

/-- The regex test `re.match(r"^\d{4}$", y)`. -/
def isFourDigits (s : String) : Bool := decide (s.data.length = 4) && s.data.all asciiDigit

/-- A Python value as passed to `normalize_year`: `None`, an `int`, or a `str`. -/
inductive PyVal where
  | none
  | int (n : Int)
  | str (s : String)
deriving DecidableEq

/-- One author dict; only the `"last"` field matters to the modelled
functions (`a.get("last")` yields `None` when the key is absent). -/
structure Author where
  last : Option String
deriving DecidableEq

/-- The `authors` payload the app constructs: `None`/missing, an organization
dict `{"is_org": True, "org_name": ...}`, or a list of author dicts. -/
inductive AuthorsVal where
  | pynone
  | org (orgName : Option String)
  | persons (l : List Author)
deriving DecidableEq

/-- The fields of a reference dict used by `reference_key_guess`. -/
structure Ref where
  authors : AuthorsVal
  year : PyVal
deriving DecidableEq

/-- Python `x or ""` applied to an optional string, as in `_strip(s)`. -/
def optStr (o : Option String) : String := o.getD ""

/-- The function `normalize_year` (src/app.py lines 42-53). Note the `int`
branch returns `str(y)` without any validation. -/
def normalize_year : PyVal → String
  | .none => "n.d."
  | .int n => toString n
  | .str s =>
    if pyStrip s = "" then ("n.d.")
    else if pyLower (pyStrip s) = "n.d." then ("n.d.")
    else if isFourDigits (pyStrip s) then pyStrip s else ("n.d.")

/-- The function `first_author_key` (src/app.py lines 83-88): full lowercased
trimmed name, with sentinel `"unknown"`. -/
def first_author_key : AuthorsVal → String
  | .org name =>
    if pyLower (pyStrip (optStr name)) = "" then ("unknown")
    else pyLower (pyStrip (optStr name))
  | .pynone => "unknown"
  | .persons [] => "unknown"
  | .persons (a :: _) =>
    if pyLower (pyStrip (optStr a.last)) = "" then ("unknown")
    else pyLower (pyStrip (optStr a.last))

/-- The author token of `reference_key_guess` (src/app.py lines 342-358):
first word of the organization name, or the first author's full last name, in
original case, with sentinel `"Unknown"`. -/
def refGuessToken : AuthorsVal → String
  | .org name =>
    pyFirstWord (if pyStrip (optStr name) = "" then ("Unknown") else pyStrip (optStr name))
  | .persons (a :: _) =>
    if pyStrip (optStr a.last) = "" then ("Unknown") else pyStrip (optStr a.last)
  | .pynone => "Unknown"
  | .persons [] => "Unknown"

/-- The function `reference_key_guess` (src/app.py lines 342-358): the author
token paired with the normalized year. -/
def reference_key_guess (r : Ref) : String × String :=
  (refGuessToken r.authors, normalize_year r.year)

/-- The year alternative `(\d{4}|n\.d\.)` of both citation regexes: exactly
four digits, or the literal `n.d.`; both alternatives are four characters, and
their first characters are disjoint, so no backtracking arises. -/
def matchYearTok : List Char → Option (String × List Char)
  | d1 :: d2 :: d3 :: d4 :: rest =>
    if asciiDigit d1 && asciiDigit d2 && asciiDigit d3 && asciiDigit d4 then
      some (⟨[d1, d2, d3, d4]⟩, rest)
    else if decide (d1 = 'n') && decide (d2 = '.') && decide (d3 = 'd') && decide (d4 = '.') then
      some ("n.d.", rest)
    else none
  | _ => none

/-- The character class of CITATION_PAREN_RE: letters, hyphen, the three
mojibake characters U+201A, U+00C4, U+00F4 found literally in the source
file's pattern, apostrophe, space. -/
def parenFragChar (c : Char) : Bool :=
  asciiLetter c || decide (c.toNat = 45) || decide (c.toNat = 8218) ||
    decide (c.toNat = 196) || decide (c.toNat = 244) ||
    decide (c.toNat = 39) || decide (c.toNat = 32)

/-- The character class of CITATION_NARR_RE: as `parenFragChar` but without
the space. -/
def narrWordChar (c : Char) : Bool :=
  asciiLetter c || decide (c.toNat = 45) || decide (c.toNat = 8218) ||
    decide (c.toNat = 196) || decide (c.toNat = 244) || decide (c.toNat = 39)

/-- One attempt of CITATION_PAREN_RE, the regex
`\(([A-Za-z][A-Za-z\-<moji>' ]+?),\s*(\d{4}|n\.d\.)\)` (where `<moji>`
stands for the file's three literal mojibake characters), anchored at the
current
position. The lazy `+?` admits no useful backtracking because the fragment
class excludes `,`: the fragment is exactly the run of class characters after
`(` (length at least 2, starting with a letter), and the match succeeds iff
that run is followed by `,`, optional whitespace, a year token and `)`.
Returns the raw capture groups and the input remaining after the match. -/
def matchParenAt : List Char → Option ((String × String) × List Char)
  | '(' :: c :: rest =>
    if asciiLetter c && !(rest.takeWhile parenFragChar).isEmpty then
      match rest.dropWhile parenFragChar with
      | ',' :: rest2 =>
        match matchYearTok (rest2.dropWhile pyWs) with
        | some (y, rest3) =>
          match rest3 with
          | ')' :: rem => some ((⟨c :: rest.takeWhile parenFragChar⟩, y), rem)
          | _ => none
        | none => none
      | _ => none
    else none
  | _ => none

/-- Driver for `re.finditer` with CITATION_PAREN_RE: try a match at every
position, skipping past each match found; each produced pair is
`(m.group(1).strip(), m.group(2))`. The fuel starts at the list length and
dominates the number of steps, since every step consumes at least one
character. -/
def scanParenAux : Nat → List Char → List (String × String)
  | 0, _ => []
  | _ + 1, [] => []
  | fuel + 1, c :: rest =>
    match matchParenAt (c :: rest) with
    | some ((a, y), rem) => (pyStrip a, y) :: scanParenAux fuel rem
    | none => scanParenAux fuel rest

/-- All parenthetical citation matches over a text blob. -/
def scanParen (s : String) : List (String × String) := scanParenAux s.data.length s.data

/-- The `\b` word boundary before the leading `[A-Z]`: start of input, or a
previous character that is not a word character. -/
def boundaryOk : Option Char → Bool
  | Option.none => true
  | Option.some p => !pyWordChar p

/-- One attempt of CITATION_NARR_RE, the regex
`\b([A-Z][A-Za-z\-<moji>']+)\s*\((\d{4}|n\.d\.)\)` (with `<moji>` as in
`matchParenAt`), at the current position, given
the previous character. The greedy `+` admits no useful backtracking because a
shortened group would be followed by a class character, which is neither
whitespace nor `(`. -/
def matchNarrAt (prev : Option Char) : List Char → Option ((String × String) × List Char)
  | c :: rest =>
    if boundaryOk prev && asciiUpper c && !(rest.takeWhile narrWordChar).isEmpty then
      match (rest.dropWhile narrWordChar).dropWhile pyWs with
      | '(' :: rest2 =>
        match matchYearTok rest2 with
        | some (y, rest3) =>
          match rest3 with
          | ')' :: rem => some ((⟨c :: rest.takeWhile narrWordChar⟩, y), rem)
          | _ => none
        | none => none
      | _ => none
    else none
  | [] => none

/-- Driver for `re.finditer` with CITATION_NARR_RE, tracking the previous
character for the `\b` test; after a match the previous character is the
closing `)`. -/
def scanNarrAux : Nat → Option Char → List Char → List (String × String)
  | 0, _, _ => []
  | _ + 1, _, [] => []
  | fuel + 1, prev, c :: rest =>
    match matchNarrAt prev (c :: rest) with
    | some ((a, y), rem) => (pyStrip a, y) :: scanNarrAux fuel (some ')') rem
    | none => scanNarrAux fuel (some c) rest

/-- All narrative citation matches over a text blob. -/
def scanNarr (s : String) : List (String × String) := scanNarrAux s.data.length Option.none s.data

/-- The per-paragraph test of `find_references_heading_idx`:
`_strip(p.text).lower() == "references"`. -/
def isRefsHeading (p : String) : Bool := decide (pyLower (pyStrip p) = "references")

/-- The function `find_references_heading_idx` (src/app.py lines 282-286):
index of the first paragraph whose trimmed, lowercased text equals
`"references"`, else `None`. -/
def find_references_heading_idx : List String → Option Nat
  | [] => Option.none
  | p :: rest =>
    if isRefsHeading p then some 0
    else (find_references_heading_idx rest).map (· + 1)

/-- Python `"\n".join` over the paragraph texts. -/
def joinNLList : List String → List Char
  | [] => []
  | s :: rest =>
    match rest with
    | [] => s.data
    | _ :: _ => s.data ++ '\n' :: joinNLList rest

/-- The text blob `"\n".join(p.text for p in doc.paragraphs)`. -/
def joinNL (ps : List String) : String := ⟨joinNLList ps⟩

/-- The function `scan_docx_for_citations` (src/app.py lines 330-340): the two
sets of raw `(author_fragment, year)` pairs, parenthetical and narrative;
Python sets are modelled as duplicate-free lists. -/
def scan_docx_for_citations (ps : List String) : List (String × String) × List (String × String) :=
  ((scanParen (joinNL ps)).dedup, (scanNarr (joinNL ps)).dedup)

/-- Lexicographic comparison of character lists: Python string `<`
(code-point order). -/
def strLtL : List Char → List Char → Bool
  | [], [] => false
  | [], _ :: _ => true
  | _ :: _, [] => false
  | a :: as, b :: bs => if a < b then true else if b < a then false else strLtL as bs

/-- Python tuple comparison `a <= b` on pairs of strings (lexicographic on the
pair, code-point lexicographic on each string). -/
def pairLe (a b : String × String) : Bool :=
  strLtL a.1.data b.1.data || (decide (a.1 = b.1) && !strLtL b.2.data a.2.data)

/-- The ordering used by Python `sorted` on the report lists, as a relation. -/
def PairLE (a b : String × String) : Prop := pairLe a b = true

instance (a b : String × String) : Decidable (PairLE a b) :=
  inferInstanceAs (Decidable (_ = _))

/-- Ordered insertion w.r.t. `pairLe`. -/
def insertPair (x : String × String) : List (String × String) → List (String × String)
  | [] => [x]
  | y :: ys => if pairLe x y then x :: y :: ys else y :: insertPair x ys

/-- Python `sorted` on a list of string pairs (insertion sort; on
duplicate-free input every sort w.r.t. this total order yields the same
list). -/
def sortPairs : List (String × String) → List (String × String)
  | [] => []
  | x :: xs => insertPair x (sortPairs xs)

/-- The scan results dict built by the Scan-document handler
(src/app.py lines 471-483). -/
structure ScanResults where
  references_heading_found : Bool
  paren_citations : List (String × String)
  narr_citations : List (String × String)
deriving DecidableEq

/-- The Scan-document handler (src/app.py lines 471-483): records whether the
references heading was found and the two sorted citation lists; the citation
scan runs on the full text whether or not the heading exists. -/
def scan_document (ps : List String) : ScanResults :=
  { references_heading_found := (find_references_heading_idx ps).isSome
    paren_citations := sortPairs (scan_docx_for_citations ps).1
    narr_citations := sortPairs (scan_docx_for_citations ps).2 }

/-- The report dict of the Build-formatted-DOCX handler. -/
structure Report where
  missing_in_references : List (String × String)
  never_cited : List (String × String)
deriving DecidableEq

/-- The membership test `(a_token, y) in ref_keys` of the report block, with
`a_token = a.split()[0]`. -/
def keyHit (rkeys : List (String × String)) (a y : String) : Bool :=
  decide ((pyFirstWord a, y) ∈ rkeys)

/-- The citation/reference report block (src/app.py lines 780-799), as a
function of the citation-scan output (`paren`, `narr`) and the saved
references: `cited = set(paren) | set(narr)`; a cited raw pair is missing when
its first-word projection is not a reference key; a reference key is never
cited when it is not among the first-word projections; both lists are
deduplicated and sorted. -/
def runChecksReport (paren narr : List (String × String)) (refs : List Ref) : Report :=
  let cited := (paren ++ narr).dedup
  let refKeys := (refs.map reference_key_guess).dedup
  let missing := cited.filter (fun p => !keyHit refKeys p.1 p.2)
  let citedProj : List (String × String) := cited.map (fun p => (pyFirstWord p.1, p.2))
  let never := refKeys.filter (fun k => !decide (k ∈ citedProj))
  { missing_in_references := sortPairs missing.dedup
    never_cited := sortPairs never.dedup }

/-- Modelled from the spec: the character class of §4.1 `normalizeAuthorToken`
(Latin letter, apostrophe - ASCII and the typographic U+2019 -, hyphen,
space). The Token Normalizer is absent from src/app.py. -/
def specAuthorChar (c : Char) : Bool :=
  asciiLetter c || decide (c.toNat = 39) || decide (c.toNat = 8217) ||
    decide (c.toNat = 45) || decide (c.toNat = 32)

/-- Modelled from the spec: §4.1 `normalizeAuthorToken`, absent from
src/app.py - trim, strip characters outside the class, trim again, sentinel
`"unknown"` when empty, else the lowercased first whitespace-delimited word. -/
def specNormalizeAuthorToken (raw : String) : String :=
  let t := pyStripList raw.data
  let t2 := pyStripList (t.filter specAuthorChar)
  if t2.isEmpty then ("unknown") else pyLower ⟨t2.takeWhile (fun c => !pyWs c)⟩

/-- Modelled from the spec: §4.1 `normalizeYear`, the Token Normalizer variant
the spec standardizes on - trim and lowercase, `"n.d."` sentinel, 4-digit
strings unchanged. -/
def specNormalizeYear (raw : String) : String :=
  let t := pyLower (pyStrip raw)
  if t = "n.d." then ("n.d.") else if isFourDigits t then t else ("n.d.")

/-- Modelled from the spec: §4.3 start-of-entry test (a), a leading
`Surname, ` - capitalized word immediately followed by a comma and a space;
returns the captured word. Also the leading-surname match of §4.4. -/
def leadingSurname (p : String) : Option String :=
  match p.data with
  | c :: rest =>
    if asciiUpper c then
      match rest.dropWhile narrWordChar with
      | ',' :: ' ' :: _ => some ⟨c :: rest.takeWhile narrWordChar⟩
      | _ => Option.none
    else Option.none
  | [] => Option.none

/-- Modelled from the spec: a parenthesized 4-digit-or-`n.d.` year token
occurring anywhere in the character list (§4.3 test (b), §4.4). -/
def hasYearParen : List Char → Bool
  | [] => false
  | c :: rest =>
    (decide (c = '(') &&
      (match matchYearTok rest with
       | some (_, ')' :: _) => true
       | _ => false)) || hasYearParen rest

/-- Modelled from the spec: §4.3 start-of-entry decision - a leading
`Surname, `, or an uppercase first letter with a parenthesized year token in
the first 80 characters. -/
def startsNewEntry (p : String) : Bool :=
  (leadingSurname p).isSome ||
    ((match p.data with
      | c :: _ => asciiUpper c
      | [] => false) && hasYearParen (p.data.take 80))

/-- Modelled from the spec: §4.3 Reference-List Segmenter loop, carrying the
accumulating current entry; blank paragraphs are skipped, a paragraph that
starts a new entry flushes the accumulator, and a continuation line is
appended with a single separating space (a continuation with an empty
accumulator starts the accumulator). -/
def segmentRefsAux : List String → String → List String
  | [], acc => if acc = "" then [] else [acc]
  | p :: rest, acc =>
    if pyStrip p = "" then segmentRefsAux rest acc
    else if startsNewEntry p then
      if acc = "" then segmentRefsAux rest p
      else acc :: segmentRefsAux rest p
    else if acc = "" then segmentRefsAux rest p
    else segmentRefsAux rest (acc ++ " " ++ p)

/-- Modelled from the spec: §4.3 Reference-List Segmenter, absent from
src/app.py (only the spec describes it). -/
def segmentRefs (ps : List String) : List String := segmentRefsAux ps ("")

/-- Modelled from the spec: the first parenthesized year token in an entry
(§4.4). -/
def firstYearParen : List Char → Option String
  | [] => Option.none
  | c :: rest =>
    if decide (c = '(') then
      match matchYearTok rest with
      | some (y, ')' :: _) => some y
      | _ => firstYearParen rest
    else firstYearParen rest

/-- Modelled from the spec: §4.4 Reference-Entry Key Extractor, absent from
src/app.py - first parenthesized year (default `"n.d."`), and the normalized
leading surname, falling back to normalizing everything before the first
`(`. -/
def refEntryKey (entry : String) : String × String :=
  let year :=
    match firstYearParen entry.data with
    | some y => specNormalizeYear y
    | Option.none => "n.d."
  let author :=
    match leadingSurname entry with
    | some s => specNormalizeAuthorToken s
    | Option.none => specNormalizeAuthorToken ⟨entry.data.takeWhile (fun c => !decide (c = '('))⟩
  (author, year)

/-- Modelled from the spec: the normalized CitationKey of a raw
(author-fragment, year) pair (§3, §4.1). -/
def specKey (p : String × String) : String × String :=
  (specNormalizeAuthorToken p.1, specNormalizeYear p.2)

/-- Modelled from the spec: `citedButMissing = mentionKeys − entryKeys` as a
sorted sequence, with membership decided on the normalized CitationKey
(§4.5 step 4). -/
def specCitedButMissing (mentions entries : List (String × String)) : List (String × String) :=
  sortPairs (((mentions.map specKey).dedup).filter (fun k => !decide (k ∈ entries.map specKey)))

/-- Modelled from the spec: `listedButUncited = entryKeys − mentionKeys` as a
sorted sequence, with membership decided on the normalized CitationKey
(§4.5 step 4). -/
def specListedButUncited (mentions entries : List (String × String)) : List (String × String) :=
  sortPairs (((entries.map specKey).dedup).filter (fun k => !decide (k ∈ mentions.map specKey)))

/-- The Scenario A document text from the spec. -/
def scenarioAText : String := "Prior work (Smith, 2021) showed X. Later, Jones and Lee (2020) argued Y."

/-- A document text whose single parenthetical citation has a lowercase
author fragment. -/
def smithDocText : String := "See (smith, 2020)."

/-- A one-entry reference list whose author last name is capitalized. -/
def smithRefs : List Ref := [⟨.persons [⟨some ("Smith")⟩], .str ("2020")⟩]

/-! Order-theoretic facts about the comparison underlying Python `sorted`. -/

theorem strLtL_asymm {x y : List Char} (h : strLtL x y = true) : strLtL y x = false := by
  induction x generalizing y with
  | nil =>
    cases y with
    | nil => simp [strLtL] at h
    | cons b bs => simp [strLtL]
  | cons a as ih =>
    cases y with
    | nil => simp [strLtL] at h
    | cons b bs =>
      simp only [strLtL] at h ⊢
      by_cases hab : a < b
      · have hba : ¬ b < a := lt_asymm hab
        simp [hab, hba]
      · by_cases hba : b < a
        · simp [hab, hba] at h
        · simp only [hab, hba, if_false] at h ⊢
          exact ih h

theorem strLtL_connex {x y : List Char} (h1 : strLtL x y = false) (h2 : strLtL y x = false) :
    x = y := by
  induction x generalizing y with
  | nil =>
    cases y with
    | nil => rfl
    | cons b bs => simp [strLtL] at h1
  | cons a as ih =>
    cases y with
    | nil => simp [strLtL] at h2
    | cons b bs =>
      simp only [strLtL] at h1 h2
      by_cases hab : a < b
      · simp [hab] at h1
      · by_cases hba : b < a
        · simp [hba, hab] at h2
        · have hEq : a = b := le_antisymm (not_lt.mp hba) (not_lt.mp hab)
          subst hEq
          simp only [lt_irrefl, if_false] at h1 h2
          rw [ih h1 h2]

theorem strLtL_irrefl (x : List Char) : strLtL x x = false := by
  induction x with
  | nil => rfl
  | cons a as ih => simp [strLtL, lt_irrefl, ih]

theorem strLtL_trans {x y z : List Char} (h1 : strLtL x y = true) (h2 : strLtL y z = true) :
    strLtL x z = true := by
  induction x generalizing y z with
  | nil =>
    cases y with
    | nil => simp [strLtL] at h1
    | cons b bs =>
      cases z with
      | nil => simp [strLtL] at h2
      | cons c cs => simp [strLtL]
  | cons a as ih =>
    cases y with
    | nil => simp [strLtL] at h1
    | cons b bs =>
      cases z with
      | nil => simp [strLtL] at h2
      | cons c cs =>
        simp only [strLtL] at h1 h2 ⊢
        by_cases hab : a < b
        · by_cases hbc : b < c
          · simp [lt_trans hab hbc]
          · by_cases hcb : c < b
            · simp [hbc, hcb] at h2
            · have hEq : b = c := le_antisymm (not_lt.mp hcb) (not_lt.mp hbc)
              subst hEq
              simp [hab]
        · by_cases hba : b < a
          · simp [hab, hba] at h1
          · have hEq : a = b := le_antisymm (not_lt.mp hba) (not_lt.mp hab)
            subst hEq
            simp only [lt_irrefl, if_false] at h1
            by_cases hac : a < c
            · simp [hac]
            · by_cases hca : c < a
              · simp [hac, hca] at h2
              · simp only [hac, hca, if_false] at h2 ⊢
                exact ih h1 h2

theorem strEq_of_data {s t : String} (h : s.data = t.data) : s = t := by
  cases s
  cases t
  simp_all

theorem pairLe_total (a b : String × String) : pairLe a b = true ∨ pairLe b a = true := by
  unfold pairLe
  by_cases h1 : strLtL a.1.data b.1.data = true
  · left
    simp [h1]
  · rw [Bool.not_eq_true] at h1
    by_cases h2 : strLtL b.1.data a.1.data = true
    · right
      simp [h2]
    · rw [Bool.not_eq_true] at h2
      have he : a.1 = b.1 := strEq_of_data (strLtL_connex h1 h2)
      by_cases h3 : strLtL b.2.data a.2.data = true
      · right
        have h4 : strLtL a.2.data b.2.data = false := strLtL_asymm h3
        simp [he, h2, h4]
      · left
        rw [Bool.not_eq_true] at h3
        simp [he, h1, h3]

theorem pairLe_antisymm {a b : String × String} (h1 : pairLe a b = true)
    (h2 : pairLe b a = true) : a = b := by
  unfold pairLe at h1 h2
  by_cases hlt : strLtL a.1.data b.1.data = true
  · exfalso
    have h3 : strLtL b.1.data a.1.data = false := strLtL_asymm hlt
    simp only [h3, Bool.false_or, Bool.and_eq_true, decide_eq_true_eq] at h2
    obtain ⟨he, _⟩ := h2
    rw [he] at hlt
    rw [strLtL_irrefl] at hlt
    simp at hlt
  · rw [Bool.not_eq_true] at hlt
    simp only [hlt, Bool.false_or, Bool.and_eq_true, decide_eq_true_eq, Bool.not_eq_true'] at h1
    obtain ⟨he1, hle1⟩ := h1
    have hlt2 : strLtL b.1.data a.1.data = false := by
      rw [he1]
      exact strLtL_irrefl _
    simp only [hlt2, Bool.false_or, Bool.and_eq_true, decide_eq_true_eq, Bool.not_eq_true'] at h2
    obtain ⟨_, hle2⟩ := h2
    have he2 : a.2 = b.2 := strEq_of_data (strLtL_connex hle2 hle1)
    exact Prod.ext he1 he2

instance : IsAntisymm (String × String) PairLE :=
  ⟨fun _ _ h1 h2 => pairLe_antisymm h1 h2⟩

theorem pairLe_trans {a b c : String × String} (h1 : pairLe a b = true)
    (h2 : pairLe b c = true) : pairLe a c = true := by
  unfold pairLe at h1 h2 ⊢
  by_cases hab : strLtL a.1.data b.1.data = true
  · by_cases hbc : strLtL b.1.data c.1.data = true
    · simp [strLtL_trans hab hbc]
    · rw [Bool.not_eq_true] at hbc
      simp only [hbc, Bool.false_or, Bool.and_eq_true, decide_eq_true_eq] at h2
      obtain ⟨he, _⟩ := h2
      rw [he] at hab
      simp [hab]
  · rw [Bool.not_eq_true] at hab
    simp only [hab, Bool.false_or, Bool.and_eq_true, decide_eq_true_eq, Bool.not_eq_true'] at h1
    obtain ⟨he1, hle1⟩ := h1
    by_cases hbc : strLtL b.1.data c.1.data = true
    · rw [← he1] at hbc
      simp [hbc]
    · rw [Bool.not_eq_true] at hbc
      simp only [hbc, Bool.false_or, Bool.and_eq_true, decide_eq_true_eq, Bool.not_eq_true'] at h2
      obtain ⟨he2, hle2⟩ := h2
      have hac : strLtL a.1.data c.1.data = false := by
        rw [he1]
        exact hbc
      have hle3 : strLtL c.2.data a.2.data = false := by
        by_cases hca : strLtL c.2.data a.2.data = true
        · exfalso
          by_cases hx : strLtL a.2.data b.2.data = true
          · rw [strLtL_trans hca hx] at hle2
            simp at hle2
          · rw [Bool.not_eq_true] at hx
            have hxx : a.2.data = b.2.data :=
              congrArg String.data (strEq_of_data (strLtL_connex hx hle1))
            rw [hxx] at hca
            rw [hca] at hle2
            simp at hle2
        · rw [Bool.not_eq_true] at hca
          exact hca
      simp [hac, he1.trans he2, hle3]

/-! Insertion-sort facts for `sortPairs` (the embedding of Python `sorted`). -/

theorem insertPair_perm (x : String × String) (l : List (String × String)) :
    (insertPair x l).Perm (x :: l) := by
  induction l with
  | nil => exact List.Perm.refl _
  | cons y ys ih =>
    unfold insertPair
    by_cases h : pairLe x y = true
    · simp only [h, if_true]
      exact List.Perm.refl _
    · simp only [h, if_false]
      exact (ih.cons y).trans (List.Perm.swap x y ys)

theorem sortPairs_perm (l : List (String × String)) : (sortPairs l).Perm l := by
  induction l with
  | nil => exact List.Perm.refl _
  | cons x xs ih => exact (insertPair_perm x (sortPairs xs)).trans (ih.cons x)

theorem mem_sortPairs {a : String × String} {l : List (String × String)} :
    a ∈ sortPairs l ↔ a ∈ l :=
  (sortPairs_perm l).mem_iff

theorem insertPair_sorted (x : String × String) {l : List (String × String)}
    (h : List.Sorted PairLE l) : List.Sorted PairLE (insertPair x l) := by
  induction l with
  | nil => simp [insertPair]
  | cons y ys ih =>
    rw [List.sorted_cons] at h
    obtain ⟨hy, hys⟩ := h
    unfold insertPair
    by_cases hxy : pairLe x y = true
    · rw [if_pos hxy]
      rw [List.sorted_cons]
      refine ⟨?_, List.sorted_cons.mpr ⟨hy, hys⟩⟩
      intro b hb
      rcases List.mem_cons.mp hb with rfl | hb
      · exact hxy
      · exact pairLe_trans hxy (hy b hb)
    · rw [if_neg hxy]
      rw [List.sorted_cons]
      refine ⟨?_, ih hys⟩
      intro b hb
      rcases List.mem_cons.mp ((insertPair_perm x ys).mem_iff.mp hb) with hbx | hb
      · rw [hbx]
        rcases pairLe_total x y with hx | hx
        · exact absurd hx hxy
        · exact hx
      · exact hy b hb

theorem sortPairs_sorted (l : List (String × String)) : List.Sorted PairLE (sortPairs l) := by
  induction l with
  | nil => simp [sortPairs]
  | cons x xs ih => exact insertPair_sorted x ih

theorem sortPairs_eq_of_perm {l1 l2 : List (String × String)} (h : l1.Perm l2) :
    sortPairs l1 = sortPairs l2 :=
  List.eq_of_perm_of_sorted ((sortPairs_perm l1).trans (h.trans (sortPairs_perm l2).symm))
    (sortPairs_sorted l1) (sortPairs_sorted l2)

/-! Facts about the Python string helpers. -/

theorem trimTrail_sublist (l : List Char) : (trimTrail l).Sublist l := by
  induction l with
  | nil => simp [trimTrail]
  | cons c cs ih =>
    unfold trimTrail
    by_cases h : ((trimTrail cs).isEmpty && pyWs c) = true
    · rw [if_pos h]
      exact List.nil_sublist _
    · rw [if_neg h]
      exact ih.cons₂ c

theorem mem_pyStripList {c : Char} {l : List Char} (h : c ∈ pyStripList l) : c ∈ l := by
  unfold pyStripList at h
  have h1 : c ∈ l.dropWhile pyWs := (trimTrail_sublist _).mem h
  exact (List.dropWhile_sublist pyWs).mem h1

theorem trimTrail_head {m : List Char} {c : Char} {cs : List Char}
    (h : trimTrail m = c :: cs) : ∃ t, m = c :: t := by
  cases m with
  | nil => simp [trimTrail] at h
  | cons a t =>
    unfold trimTrail at h
    by_cases ha : ((trimTrail t).isEmpty && pyWs a) = true
    · rw [if_pos ha] at h
      exact absurd h (by simp)
    · rw [if_neg ha] at h
      injection h with h1 _
      exact ⟨t, by rw [h1]⟩

theorem dropWhile_head_false {p : Char → Bool} {l : List Char} {c : Char} {t : List Char}
    (h : l.dropWhile p = c :: t) : p c = false := by
  induction l with
  | nil => simp at h
  | cons a l2 ih =>
    rw [List.dropWhile_cons] at h
    by_cases ha : p a = true
    · rw [if_pos ha] at h
      exact ih h
    · rw [if_neg ha] at h
      injection h with h1 _
      rw [Bool.not_eq_true] at ha
      rw [← h1]
      exact ha

theorem pyStripList_head_not_ws {l : List Char} {c : Char} {cs : List Char}
    (h : pyStripList l = c :: cs) : pyWs c = false := by
  unfold pyStripList at h
  obtain ⟨t, ht⟩ := trimTrail_head h
  exact dropWhile_head_false ht

theorem string_pos_of_ne_empty {s : String} (h : s ≠ "") : 0 < s.length := by
  cases hs : s.data with
  | nil => exact absurd (strEq_of_data (by rw [hs])) h
  | cons c cs =>
    have hlen : s.length = s.data.length := rfl
    rw [hlen, hs]
    simp

theorem pyFirstWord_pos {s : String} {c : Char} {cs : List Char}
    (hd : s.data = c :: cs) (hc : pyWs c = false) : 0 < (pyFirstWord s).length := by
  have h1 : s.data.dropWhile pyWs = c :: cs := by
    rw [hd, List.dropWhile_cons, if_neg (by simp [hc])]
  have h2 : (pyFirstWord s).data = (c :: cs).takeWhile (fun x => !pyWs x) := by
    unfold pyFirstWord
    rw [h1]
  rw [List.takeWhile_cons, if_pos (by simp [hc])] at h2
  have : (pyFirstWord s).length = (pyFirstWord s).data.length := rfl
  rw [this, h2]
  simp

/-! Facts about `normalize_year`. -/

theorem pyLowerChar_digit {c : Char} (h : asciiDigit c = true) : pyLowerChar c = c := by
  unfold pyLowerChar
  rw [if_neg]
  unfold asciiDigit at h
  unfold asciiUpper
  simp only [Bool.and_eq_true, decide_eq_true_eq] at h ⊢
  omega

theorem isFourDigits_pyLower_ne {y : String} (h : isFourDigits y = true) :
    pyLower y ≠ "n.d." := by
  intro hl
  unfold isFourDigits at h
  simp only [Bool.and_eq_true, decide_eq_true_eq, List.all_eq_true] at h
  obtain ⟨hlen, hall⟩ := h
  have hne : y.data ≠ [] := by
    intro hnil
    rw [hnil] at hlen
    simp at hlen
  obtain ⟨b, L, hbl⟩ := List.exists_cons_of_ne_nil hne
  have hmap : (pyLower y).data = y.data.map pyLowerChar := rfl
  rw [hl] at hmap
  rw [hbl] at hmap
  simp only [List.map_cons] at hmap
  have hb : pyLowerChar b = 'n' := by
    injection hmap with h1 _
    exact h1.symm
  have hdig : asciiDigit b = true := hall b (by rw [hbl] ; exact List.mem_cons_self b L)
  rw [pyLowerChar_digit hdig] at hb
  rw [hb] at hdig
  exact absurd hdig (by decide)

theorem normalize_year_str (s : String) :
    normalize_year (.str s) = if isFourDigits (pyStrip s) then pyStrip s else ("n.d.") := by
  show (if pyStrip s = "" then ("n.d.")
      else if pyLower (pyStrip s) = "n.d." then ("n.d.")
      else if isFourDigits (pyStrip s) then pyStrip s else ("n.d.")) = _
  by_cases h0 : pyStrip s = ""
  · have h4 : isFourDigits (pyStrip s) = false := by
      rw [h0]
      decide
    rw [if_pos h0, if_neg (by simp [h4])]
  · rw [if_neg h0]
    by_cases h1 : pyLower (pyStrip s) = "n.d."
    · have h4 : isFourDigits (pyStrip s) = false := by
        by_cases hh : isFourDigits (pyStrip s) = true
        · exact absurd h1 (isFourDigits_pyLower_ne hh)
        · rw [Bool.not_eq_true] at hh
          exact hh
      rw [if_pos h1, if_neg (by simp [h4])]
    · rw [if_neg h1]

/-! Membership characterizations of the report lists. -/

theorem mem_missing_iff (paren narr : List (String × String)) (refs : List Ref)
    (a y : String) :
    (a, y) ∈ (runChecksReport paren narr refs).missing_in_references
      ↔ (a, y) ∈ (paren ++ narr).dedup
          ∧ keyHit ((refs.map reference_key_guess).dedup) a y = false := by
  unfold runChecksReport
  simp only [mem_sortPairs, List.mem_dedup, List.mem_filter, Bool.not_eq_true']

theorem mem_never_iff (paren narr : List (String × String)) (refs : List Ref)
    (k : String × String) :
    k ∈ (runChecksReport paren narr refs).never_cited
      ↔ k ∈ (refs.map reference_key_guess).dedup
          ∧ decide (k ∈ ((paren ++ narr).dedup.map (fun p => (pyFirstWord p.1, p.2)))) = false := by
  unfold runChecksReport
  simp only [mem_sortPairs, List.mem_dedup, List.mem_filter, Bool.not_eq_true']

/-! Characterization of `find_references_heading_idx`. -/

theorem find_refs_isSome_iff (ps : List String) :
    (find_references_heading_idx ps).isSome = true ↔ ∃ p ∈ ps, isRefsHeading p = true := by
  induction ps with
  | nil => simp [find_references_heading_idx]
  | cons p rest ih =>
    unfold find_references_heading_idx
    by_cases h : isRefsHeading p = true
    · rw [if_pos h]
      simp [h]
    · rw [if_neg h]
      constructor
      · intro hs
        cases hf : find_references_heading_idx rest with
        | none =>
          rw [hf] at hs
          simp at hs
        | some i =>
          obtain ⟨q, hq1, hq2⟩ := ih.mp (by rw [hf] ; rfl)
          exact ⟨q, List.mem_cons_of_mem p hq1, hq2⟩
      · rintro ⟨q, hq1, hq2⟩
        rcases List.mem_cons.mp hq1 with hqp | hq3
        · exact absurd (hqp ▸ hq2) h
        · have hsome := ih.mpr ⟨q, hq3, hq2⟩
          cases hf : find_references_heading_idx rest with
          | none =>
            rw [hf] at hsome
            simp at hsome
          | some i =>
            rfl

theorem find_refs_some {ps : List String} {i : Nat}
    (h : find_references_heading_idx ps = some i) :
    (∃ q, ps.get? i = some q ∧ isRefsHeading q = true)
    ∧ ∀ j q, j < i → ps.get? j = some q → isRefsHeading q = false := by
  induction ps generalizing i with
  | nil => simp [find_references_heading_idx] at h
  | cons p rest ih =>
    unfold find_references_heading_idx at h
    by_cases hp : isRefsHeading p = true
    · rw [if_pos hp] at h
      injection h with h0
      subst h0
      refine ⟨⟨p, rfl, hp⟩, ?_⟩
      intro j q hj
      omega
    · rw [if_neg hp] at h
      rcases Option.map_eq_some'.mp h with ⟨i2, hi2, hplus⟩
      subst hplus
      obtain ⟨⟨q, hq1, hq2⟩, hmin⟩ := ih hi2
      refine ⟨⟨q, by simpa using hq1, hq2⟩, ?_⟩
      intro j r hj hr
      cases j with
      | zero =>
        simp only [List.get?_cons_zero, Option.some.injEq] at hr
        rw [Bool.not_eq_true] at hp
        rw [← hr]
        exact hp
      | succ j2 =>
        exact hmin j2 r (by omega) (by simpa using hr)

/-! The author token of every reference key is nonempty. -/

theorem pyFirstWord_of_strip_pos {s : String} (h : pyStrip s ≠ "") :
    0 < (pyFirstWord (pyStrip s)).length := by
  cases hd : (pyStrip s).data with
  | nil => exact absurd (strEq_of_data (by rw [hd])) h
  | cons c cs =>
    have hc : pyWs c = false := pyStripList_head_not_ws (l := s.data) hd
    exact pyFirstWord_pos hd hc

theorem first_author_key_pos (a : AuthorsVal) : 0 < (first_author_key a).length := by
  cases a with
  | org name =>
    simp only [first_author_key]
    by_cases h : pyLower (pyStrip (optStr name)) = ""
    · rw [if_pos h]
      decide
    · rw [if_neg h]
      exact string_pos_of_ne_empty h
  | pynone => decide
  | persons l =>
    cases l with
    | nil => decide
    | cons a rest =>
      simp only [first_author_key]
      by_cases h : pyLower (pyStrip (optStr a.last)) = ""
      · rw [if_pos h]
        decide
      · rw [if_neg h]
        exact string_pos_of_ne_empty h

theorem refGuessToken_pos (a : AuthorsVal) : 0 < (refGuessToken a).length := by
  cases a with
  | org name =>
    simp only [refGuessToken]
    by_cases h : pyStrip (optStr name) = ""
    · rw [if_pos h]
      decide
    · rw [if_neg h]
      exact pyFirstWord_of_strip_pos h
  | pynone => decide
  | persons l =>
    cases l with
    | nil => decide
    | cons a rest =>
      simp only [refGuessToken]
      by_cases h : pyStrip (optStr a.last) = ""
      · rw [if_pos h]
        decide
      · rw [if_neg h]
        exact string_pos_of_ne_empty h

/-! Every author fragment produced by the parenthetical scan consists of
fragment-class characters only. -/

theorem asciiLetter_parenFragChar {c : Char} (h : asciiLetter c = true) :
    parenFragChar c = true := by
  unfold parenFragChar
  rw [h]
  rfl

theorem matchParenAt_frag {l : List Char} {a y : String} {rem : List Char}
    (h : matchParenAt l = some ((a, y), rem)) :
    ∀ c ∈ a.data, parenFragChar c = true := by
  rw [matchParenAt.eq_def] at h
  split at h
  case h_2 => simp at h
  case h_1 c rest =>
    split at h
    case isFalse => simp at h
    case isTrue hcond =>
      split at h
      case h_2 => simp at h
      case h_1 rest2 heq2 =>
        split at h
        case h_2 => simp at h
        case h_1 y0 rest3 heq3 =>
          split at h
          case h_2 => simp at h
          case h_1 rem0 heq4 =>
            simp only [Option.some.injEq, Prod.mk.injEq] at h
            obtain ⟨⟨ha, hy⟩, hrem⟩ := h
            intro ch hch
            rw [← ha] at hch
            simp only [Bool.and_eq_true] at hcond
            rcases List.mem_cons.mp hch with hc1 | hc2
            · rw [hc1]
              exact asciiLetter_parenFragChar hcond.1
            · exact List.mem_takeWhile_imp hc2

theorem scanParenAux_frag {fuel : Nat} {l : List Char} {a y : String}
    (h : (a, y) ∈ scanParenAux fuel l) : ∀ c ∈ a.data, parenFragChar c = true := by
  induction fuel generalizing l a y with
  | zero => simp [scanParenAux] at h
  | succ n ih =>
    cases l with
    | nil => simp [scanParenAux] at h
    | cons c0 rest =>
      rw [scanParenAux] at h
      cases hm : matchParenAt (c0 :: rest) with
      | none =>
        rw [hm] at h
        exact ih h
      | some v =>
        obtain ⟨⟨a0, y0⟩, rem⟩ := v
        rw [hm] at h
        rcases List.mem_cons.mp h with heq | hmem
        · simp only [Prod.mk.injEq] at heq
          obtain ⟨ha, hy⟩ := heq
          intro ch hch
          rw [ha] at hch
          exact matchParenAt_frag hm ch (mem_pyStripList hch)
        · exact ih hmem

theorem scanParen_frag {s a y : String} (h : (a, y) ∈ scanParen s) :
    ∀ c ∈ a.data, parenFragChar c = true :=
  scanParenAux_frag h

/-! Claim theorems. -/

/-- C1 (counterexample): for the Scenario A text the in-text citation scan
does not produce the lowercase mention keys the claim states: neither
("smith","2021") nor ("jones","2020") occurs among the scanned pairs. -/
theorem c1_counterexample :
    decide (("smith", "2021") ∈ ((scanParen scenarioAText) ++ scanNarr scenarioAText).dedup)
        = false
    ∧ decide (("jones", "2020") ∈ ((scanParen scenarioAText) ++ scanNarr scenarioAText).dedup)
        = false := by
  decide

/-- C1 (amended): for the Scenario A text the in-text citation scan produces
exactly the raw pairs ("Smith","2021") and ("Lee","2020"): author tokens keep
their original case, and the narrative citation "Jones and Lee (2020)" yields
the capitalized word immediately before the parenthesized year, "Lee", not
the first-listed author. -/
theorem c1_amended :
    sortPairs (((scanParen scenarioAText) ++ scanNarr scenarioAText).dedup)
      = [("Lee", "2020"), ("Smith", "2021")] := by
  decide

/-- C2 (counterexample): the parenthetical extractor performs no author-list
cutting: "(Smith & Jones, 2020)" is not matched at all (no key is produced,
rather than the claimed key for the first-listed author), and
"(Smith and Jones, 2020)" produces the raw uncut fragment. -/
theorem c2_counterexample :
    scanParen ("(Smith & Jones, 2020)") = []
    ∧ scanParen ("(Smith and Jones, 2020)") = [("Smith and Jones", "2020")] := by
  decide

/-- C2 (amended): the extractor cuts nothing: every produced author fragment
consists only of fragment-class characters, and the class excludes "&", so a
span containing "&" never matches; the words "and"/"et al." are kept verbatim
in the produced fragment, as "(Smith and Jones, 2020)" shows. -/
theorem c2_amended (s a y : String) (h : (a, y) ∈ scanParen s) :
    (∀ c ∈ a.data, parenFragChar c = true)
    ∧ parenFragChar '&' = false
    ∧ scanParen ("(Smith and Jones, 2020)") = [("Smith and Jones", "2020")] :=
  ⟨scanParen_frag h, by decide, by decide⟩

/-- C2 witness: the amended theorem applied to the match produced by the text
"(Smith, 2020)". -/
theorem c2_amended_witness :
    (∀ c ∈ ("Smith" : String).data, parenFragChar c = true)
    ∧ parenFragChar '&' = false
    ∧ scanParen ("(Smith and Jones, 2020)") = [("Smith and Jones", "2020")] :=
  c2_amended ("(Smith, 2020)") ("Smith") ("2020") (by decide)

/-- C3 (counterexample): an integer input bypasses year validation: 999
yields "999", which is neither a 4-digit numeral string nor the sentinel. -/
theorem c3_counterexample :
    normalize_year (.int 999) = "999"
    ∧ isFourDigits ("999") = false
    ∧ decide (normalize_year (.int 999) = "n.d.") = false := by
  decide

/-- C3 (amended): for None the result is the sentinel; for a string input the
result is the trimmed input when that is exactly four digits, and the
sentinel otherwise - so string inputs always normalize to a 4-digit string or
"n.d."; an integer input is returned as its decimal string with no
validation. -/
theorem c3_amended :
    normalize_year PyVal.none = "n.d."
    ∧ (∀ s : String, normalize_year (.str s)
        = if isFourDigits (pyStrip s) then pyStrip s else ("n.d."))
    ∧ (∀ n : Int, normalize_year (.int n) = toString n) :=
  ⟨rfl, normalize_year_str, fun _ => rfl⟩

/-- C4 (counterexample): author-token normalization performs no character
stripping and no first-word truncation: a multi-word last name keeps all its
words, and a trailing period survives. -/
theorem c4_counterexample :
    first_author_key (.persons [⟨some ("Van Der Berg")⟩]) = "van der berg"
    ∧ decide (first_author_key (.persons [⟨some ("Van Der Berg")⟩]) = "van") = false
    ∧ first_author_key (.persons [⟨some ("Smith.")⟩]) = "smith."
    ∧ decide (first_author_key (.persons [⟨some ("Smith.")⟩]) = "smith") = false := by
  decide

/-- C4 (amended): both author-key functions are total and never return an
empty token - but they do not strip non-Latin characters nor truncate to the
first word (`first_author_key` returns the full trimmed lowercased name, and
`reference_key_guess` keeps the original case). -/
theorem c4_amended (r : Ref) :
    0 < (first_author_key r.authors).length
    ∧ 0 < (reference_key_guess r).1.length :=
  ⟨first_author_key_pos r.authors, refGuessToken_pos r.authors⟩

/-- C5: the references boundary is found iff some paragraph's trimmed
lowercased text equals "references"; when found, the returned index is the
first such paragraph; the handler records the boundary result in the scan
results rather than failing, and the citation lists are computed from the
full joined text in either case. -/
theorem c5_boundary (ps : List String) :
    ((scan_document ps).references_heading_found = true
        ↔ ∃ p ∈ ps, isRefsHeading p = true)
    ∧ (∀ i, find_references_heading_idx ps = some i →
        (∃ q, ps.get? i = some q ∧ isRefsHeading q = true)
        ∧ ∀ j q, j < i → ps.get? j = some q → isRefsHeading q = false)
    ∧ (scan_document ps).paren_citations = sortPairs ((scanParen (joinNL ps)).dedup)
    ∧ (scan_document ps).narr_citations = sortPairs ((scanNarr (joinNL ps)).dedup) := by
  refine ⟨?_, ?_, rfl, rfl⟩
  · exact find_refs_isSome_iff ps
  · intro i hi
    exact find_refs_some hi

/-- C5 witness: the boundary theorem applied to a two-paragraph document
whose second paragraph is the heading. -/
theorem c5_boundary_witness :
    (scan_document ["Intro text.", "References"]).references_heading_found = true
    ∧ isRefsHeading ("References") = true := by
  constructor
  · exact (c5_boundary ["Intro text.", "References"]).1.mpr
      ⟨"References", by decide, by decide⟩
  · obtain ⟨⟨q, hq1, hq2⟩, _⟩ :=
      (c5_boundary ["Intro text.", "References"]).2.1 1 (by decide)
    have hg : (["Intro text.", "References"] : List String).get? 1 = some ("References") := rfl
    rw [hg] at hq1
    injection hq1 with h2
    rw [← h2] at hq2
    exact hq2

/-- C6 (counterexample): the report lists are not the normalized set
differences: for the document "See (smith, 2020)." against a reference by
"Smith" (2020), the code reports the pair as missing and the reference as
never cited, while the spec's normalized-key set differences are both
empty. -/
theorem c6_counterexample :
    (runChecksReport (scanParen smithDocText) (scanNarr smithDocText)
        smithRefs).missing_in_references = [("smith", "2020")]
    ∧ (runChecksReport (scanParen smithDocText) (scanNarr smithDocText)
        smithRefs).never_cited = [("Smith", "2020")]
    ∧ specCitedButMissing ((scanParen smithDocText ++ scanNarr smithDocText).dedup)
        (smithRefs.map reference_key_guess) = []
    ∧ specListedButUncited ((scanParen smithDocText ++ scanNarr smithDocText).dedup)
        (smithRefs.map reference_key_guess) = [] := by
  decide

/-- C6 (amended): both report lists are sorted lexicographically, and their
membership is decided on the raw original-case tokens: a cited raw pair is in
missing_in_references iff its (first word, year) projection is not a
reference key, and a reference key is in never_cited iff it is not among the
projections of the cited pairs - no lowercase normalization is applied on
either side. -/
theorem c6_amended (paren narr : List (String × String)) (refs : List Ref) :
    List.Sorted PairLE (runChecksReport paren narr refs).missing_in_references
    ∧ List.Sorted PairLE (runChecksReport paren narr refs).never_cited
    ∧ (∀ a y, (a, y) ∈ (runChecksReport paren narr refs).missing_in_references
        ↔ (a, y) ∈ (paren ++ narr).dedup
            ∧ keyHit ((refs.map reference_key_guess).dedup) a y = false)
    ∧ (∀ k, k ∈ (runChecksReport paren narr refs).never_cited
        ↔ k ∈ (refs.map reference_key_guess).dedup
            ∧ decide (k ∈ ((paren ++ narr).dedup.map (fun p => (pyFirstWord p.1, p.2))))
                = false) := by
  refine ⟨?_, ?_, mem_missing_iff paren narr refs, mem_never_iff paren narr refs⟩
  · exact sortPairs_sorted _
  · exact sortPairs_sorted _

/-- C6 witness: the amended characterization instantiated at a concrete
multi-word cited pair with an empty reference list. -/
theorem c6_amended_witness :
    ("Smith and Jones", "2020")
      ∈ (runChecksReport [("Smith and Jones", "2020")] [] []).missing_in_references :=
  ((c6_amended [("Smith and Jones", "2020")] [] []).2.2.1 ("Smith and Jones") ("2020")).mpr
    ⟨by decide, by decide⟩

/-- C7: the report is a pure function of its input, and the one source of
run-to-run variation in the Python code - set iteration order - cannot change
it: permuting the scanned match lists leaves the report identical, because
both output lists are deduplicated and sorted. Two runs on identical input
therefore produce identical reports. -/
theorem c7_determinism (paren1 narr1 paren2 narr2 : List (String × String)) (refs : List Ref)
    (hp : paren1.Perm paren2) (hn : narr1.Perm narr2) :
    runChecksReport paren1 narr1 refs = runChecksReport paren2 narr2 refs := by
  have hc : ((paren1 ++ narr1).dedup).Perm ((paren2 ++ narr2).dedup) := (hp.append hn).dedup
  have e1 : (runChecksReport paren1 narr1 refs).missing_in_references
      = (runChecksReport paren2 narr2 refs).missing_in_references :=
    sortPairs_eq_of_perm ((hc.filter _).dedup)
  have hproj := hc.map (fun p => (pyFirstWord p.1, p.2))
  have hfilter : ((refs.map reference_key_guess).dedup.filter
        (fun k => !decide (k ∈ ((paren1 ++ narr1).dedup.map (fun p => (pyFirstWord p.1, p.2))))))
      = ((refs.map reference_key_guess).dedup.filter
        (fun k => !decide (k ∈ ((paren2 ++ narr2).dedup.map (fun p => (pyFirstWord p.1, p.2)))))) := by
    apply List.filter_congr
    intro k hk
    rw [decide_eq_decide.mpr (hproj.mem_iff)]
  have e2 : (runChecksReport paren1 narr1 refs).never_cited
      = (runChecksReport paren2 narr2 refs).never_cited := by
    show sortPairs (((refs.map reference_key_guess).dedup.filter
          (fun k =>
            !decide (k ∈ ((paren1 ++ narr1).dedup.map (fun p => (pyFirstWord p.1, p.2)))))).dedup)
        = sortPairs (((refs.map reference_key_guess).dedup.filter
          (fun k =>
            !decide (k ∈ ((paren2 ++ narr2).dedup.map (fun p => (pyFirstWord p.1, p.2)))))).dedup)
    rw [hfilter]
  exact congrArg₂ Report.mk e1 e2

/-- C7 witness: the determinism theorem applied to two enumeration orders of
the same two-element cited set. -/
theorem c7_witness :
    runChecksReport [("Kim", "2020"), ("Lee", "2019")] [] []
      = runChecksReport [("Lee", "2019"), ("Kim", "2020")] [] [] :=
  c7_determinism _ _ _ _ _ (List.Perm.swap _ _ _) (List.Perm.refl _)

/-- C8: the spec-modelled segmenter merges the wrapped entry of Scenario C
into one logical item, whose spec-modelled key is ("brown","2020"). -/
theorem c8_wrapped_entry :
    segmentRefs ["Brown, A. (2020). A very long", "title that continues here. Publisher."]
      = ["Brown, A. (2020). A very long title that continues here. Publisher."]
    ∧ refEntryKey ("Brown, A. (2020). A very long title that continues here. Publisher.")
      = ("brown", "2020") := by
  decide

/-- C9: an element of missing_in_references is a raw scanned pair (original
case, possibly multi-word), and a scanned pair is in the list iff its
(first whitespace-delimited word, year) projection is not among the reference
keys. -/
theorem c9_missing_raw (text : String) (refs : List Ref) (a y : String) :
    (a, y) ∈ (runChecksReport (scanParen text) (scanNarr text) refs).missing_in_references
      ↔ (a, y) ∈ (scanParen text ++ scanNarr text).dedup
          ∧ keyHit ((refs.map reference_key_guess).dedup) a y = false :=
  mem_missing_iff (scanParen text) (scanNarr text) refs a y

/-- C9 witness: the characterization instantiated at a document whose only
citation has a multi-word raw fragment, against an empty reference list. -/
theorem c9_witness :
    ("Smith and Jones", "2020")
      ∈ (runChecksReport (scanParen ("Per (Smith and Jones, 2020)."))
          (scanNarr ("Per (Smith and Jones, 2020).")) []).missing_in_references :=
  (c9_missing_raw ("Per (Smith and Jones, 2020).") [] ("Smith and Jones") ("2020")).mpr
    ⟨by decide, by decide⟩

/-- C10: the alphabetization key and the reconciliation key disagree: for an
organization author, `first_author_key` returns the full lowercased name
while `reference_key_guess` returns the first word in original case. -/
theorem c10_key_functions_differ :
    first_author_key (.org (some ("New York Times"))) = "new york times"
    ∧ (reference_key_guess ⟨.org (some ("New York Times")), .str ("2019")⟩).1 = "New"
    ∧ decide (first_author_key (.org (some ("New York Times")))
        = (reference_key_guess ⟨.org (some ("New York Times")), .str ("2019")⟩).1) = false := by
  decide
